import Mathlib

/-!
Shallow embedding of the BIO-OPT repository core
(`BIO-OPT-MOO.ipynb` multi-objective Pareto engine and the
`biorefinery_LCA` class of the LCA notebook embedded in `README.md`),
together with theorems settling the specification claims.

Numbers (GWP, NPV, allocation percentages, impact scores) are modelled
as rationals; the source manipulates them only through comparisons,
sums, differences and products, which ℚ reproduces exactly.
-/

/-- An evaluated scenario point `(gwp, npv)`, the pair the MOO notebook
builds with `zip(GWP_filtered, NPV_filtered)`. -/
structure Point where
  gwp : ℚ
  npv : ℚ
deriving DecidableEq, Repr

/-- `is_dominated(point, others)` from the MOO notebook: `point` is
dominated when some `other` in the list has
`other[0] <= point[0] and other[1] >= point[1] and other != point`
(`!=` is Python tuple *value* inequality). -/
def is_dominated (point : Point) (others : List Point) : Bool :=
  others.any fun other =>
    decide (other.gwp ≤ point.gwp ∧ other.npv ≥ point.npv ∧ other ≠ point)

/-- `pareto_front = [point for point in filtered_points if not is_dominated(point, filtered_points)]`. -/
def pareto_front (points : List Point) : List Point :=
  points.filter fun point => !is_dominated point points

theorem is_dominated_iff {point : Point} {others : List Point} :
    is_dominated point others = true ↔
      ∃ other ∈ others,
        other.gwp ≤ point.gwp ∧ other.npv ≥ point.npv ∧ other ≠ point := by
  simp [is_dominated, List.any_eq_true]

theorem mem_pareto_front_iff {p : Point} {points : List Point} :
    p ∈ pareto_front points ↔
      p ∈ points ∧ ¬∃ q ∈ points, q.gwp ≤ p.gwp ∧ q.npv ≥ p.npv ∧ q ≠ p := by
  rw [pareto_front, List.mem_filter, Bool.not_eq_true', ← is_dominated_iff]
  simp

/-- Python `min` over a list of numbers (it raises on `[]`; the `[]`
value below is a sentinel never reached by the callers, which all
guard on non-emptiness). -/
def listMin : List ℚ → ℚ
  | [] => 0
  | [x] => x
  | x :: y :: t => min x (listMin (y :: t))

/-- Python `max` over a list of numbers (sentinel on `[]` as in `listMin`). -/
def listMax : List ℚ → ℚ
  | [] => 0
  | [x] => x
  | x :: y :: t => max x (listMax (y :: t))

theorem listMin_le_of_mem {l : List ℚ} {a : ℚ} (ha : a ∈ l) : listMin l ≤ a := by
  induction l using listMin.induct with
  | case1 => cases ha
  | case2 x =>
    rcases List.mem_singleton.mp ha with rfl
    simp [listMin]
  | case3 x y t ih =>
    rcases List.mem_cons.mp ha with rfl | hmem
    · exact min_le_left _ _
    · exact le_trans (min_le_right _ _) (ih hmem)

theorem listMin_mem {l : List ℚ} (h : l ≠ []) : listMin l ∈ l := by
  induction l using listMin.induct with
  | case1 => exact absurd rfl h
  | case2 x => simp [listMin]
  | case3 x y t ih =>
    rcases min_cases x (listMin (y :: t)) with ⟨heq, _⟩ | ⟨heq, _⟩
    · simp [listMin, heq]
    · simp only [listMin, heq]
      exact List.mem_cons_of_mem _ (ih (by simp))

theorem le_listMax_of_mem {l : List ℚ} {a : ℚ} (ha : a ∈ l) : a ≤ listMax l := by
  induction l using listMax.induct with
  | case1 => cases ha
  | case2 x =>
    rcases List.mem_singleton.mp ha with rfl
    simp [listMax]
  | case3 x y t ih =>
    rcases List.mem_cons.mp ha with rfl | hmem
    · exact le_max_left _ _
    · exact le_trans (ih hmem) (le_max_right _ _)

theorem listMax_mem {l : List ℚ} (h : l ≠ []) : listMax l ∈ l := by
  induction l using listMax.induct with
  | case1 => exact absurd rfl h
  | case2 x => simp [listMax]
  | case3 x y t ih =>
    rcases max_cases x (listMax (y :: t)) with ⟨heq, _⟩ | ⟨heq, _⟩
    · simp [listMax, heq]
    · simp only [listMax, heq]
      exact List.mem_cons_of_mem _ (ih (by simp))

/-- `np.argmin` over a list of numbers: the index of the first
occurrence of the minimum (0 on `[]`, where NumPy raises). -/
def argminQ (l : List ℚ) : Nat :=
  l.findIdx fun x => decide (x ≤ listMin l)

/-- `np.argmax` over a list of numbers: the index of the first
occurrence of the maximum (0 on `[]`, where NumPy raises). -/
def argmaxQ (l : List ℚ) : Nat :=
  l.findIdx fun x => decide (listMax l ≤ x)

theorem argminQ_lt_length {l : List ℚ} (h : l ≠ []) : argminQ l < l.length :=
  List.findIdx_lt_length_of_exists ⟨listMin l, listMin_mem h, by simp⟩

theorem get_argminQ {l : List ℚ} (hlt : argminQ l < l.length) :
    l.get ⟨argminQ l, hlt⟩ = listMin l := by
  have h1 : decide (l.get ⟨argminQ l, hlt⟩ ≤ listMin l) = true :=
    List.findIdx_get (w := hlt)
  exact le_antisymm (of_decide_eq_true h1) (listMin_le_of_mem (l.get_mem _ _))

theorem argminQ_le_of_le {l : List ℚ} (hlt : argminQ l < l.length)
    (i : Fin l.length) (hle : l.get i ≤ l.get ⟨argminQ l, hlt⟩) :
    argminQ l ≤ (i : Nat) := by
  by_contra hgt
  have hi : (i : Nat) < l.findIdx fun x => decide (x ≤ listMin l) :=
    Nat.lt_of_not_le hgt
  have hfalse := List.not_of_lt_findIdx hi
  rw [get_argminQ hlt] at hle
  simp only [decide_eq_false_iff_not] at hfalse
  exact hfalse (by simpa using hle)

theorem argmaxQ_lt_length {l : List ℚ} (h : l ≠ []) : argmaxQ l < l.length :=
  List.findIdx_lt_length_of_exists ⟨listMax l, listMax_mem h, by simp⟩

theorem get_argmaxQ {l : List ℚ} (hlt : argmaxQ l < l.length) :
    l.get ⟨argmaxQ l, hlt⟩ = listMax l := by
  have h1 : decide (listMax l ≤ l.get ⟨argmaxQ l, hlt⟩) = true :=
    List.findIdx_get (w := hlt)
  exact le_antisymm (le_listMax_of_mem (l.get_mem _ _)) (of_decide_eq_true h1)

theorem argmaxQ_le_of_le {l : List ℚ} (hlt : argmaxQ l < l.length)
    (i : Fin l.length) (hle : l.get ⟨argmaxQ l, hlt⟩ ≤ l.get i) :
    argmaxQ l ≤ (i : Nat) := by
  by_contra hgt
  have hi : (i : Nat) < l.findIdx fun x => decide (listMax l ≤ x) :=
    Nat.lt_of_not_le hgt
  have hfalse := List.not_of_lt_findIdx hi
  rw [get_argmaxQ hlt] at hle
  simp only [decide_eq_false_iff_not] at hfalse
  exact hfalse (by simpa using hle)

/-- `pareto_GWP = [point[0] for point in pareto_front]`. -/
def pareto_GWP (points : List Point) : List ℚ :=
  (pareto_front points).map Point.gwp

/-- `pareto_NPV = [point[1] for point in pareto_front]`. -/
def pareto_NPV (points : List Point) : List ℚ :=
  (pareto_front points).map Point.npv

/-- `min_gwp_index = np.argmin(pareto_GWP)`. -/
def min_gwp_index (points : List Point) : Nat :=
  argminQ (pareto_GWP points)

/-- `max_npv_index = np.argmax(pareto_NPV)`. -/
def max_npv_index (points : List Point) : Nat :=
  argmaxQ (pareto_NPV points)

/-- `ideal_gwp = min(pareto_GWP)`. -/
def ideal_gwp (points : List Point) : ℚ :=
  listMin (pareto_GWP points)

/-- `ideal_npv = max(pareto_NPV)`. -/
def ideal_npv (points : List Point) : ℚ :=
  listMax (pareto_NPV points)

/-- Squared Euclidean distance from a point to the coordinates `(g, n)`
in (gwp, npv) space. -/
def dist2 (p : Point) (g n : ℚ) : ℚ :=
  (p.gwp - g) * (p.gwp - g) + (p.npv - n) * (p.npv - n)

/-- The list `distances = [euclidean((gwp, npv), (ideal_gwp, ideal_npv)) ...]`
of the notebook, represented by the squared distances: the source stores
`sqrt (dist2 ...)`, and since `Real.sqrt` is strictly monotone on
nonnegative arguments, `np.argmin` over the square roots picks exactly
the same index (ties included) as over the squares. -/
def distances2 (points : List Point) : List ℚ :=
  (pareto_front points).map fun p => dist2 p (ideal_gwp points) (ideal_npv points)

/-- `knee_index = np.argmin(distances)`. -/
def knee_index (points : List Point) : Nat :=
  argminQ (distances2 points)

/-- One row of the input spreadsheet as read by the MOO notebook:
allocation percentages in columns 0–2, GWP in column 15, NPV in
column 19; only those five columns are ever consumed. -/
structure Row where
  bioethanol : ℚ
  vanillin : ℚ
  furfural : ℚ
  gwp : ℚ
  npv : ℚ
deriving DecidableEq, Repr

/-- The `(gwp, npv)` pair of a row, as assembled into `filtered_points`. -/
def rowPoint (r : Row) : Point :=
  ⟨r.gwp, r.npv⟩

/-- `filtered_data = [... for i, (gwp, npv) in enumerate(zip(GWP, NPV)) if npv > 0]`. -/
def filtered_data (rows : List Row) : List Row :=
  rows.filter fun r => decide (0 < r.npv)

/-- `filtered_points = list(zip(GWP_filtered, NPV_filtered))`. -/
def filtered_points (rows : List Row) : List Point :=
  (filtered_data rows).map rowPoint

/-- `bioethanol_filtered = [point[2] for point in filtered_data]`. -/
def bioethanol_filtered (rows : List Row) : List ℚ :=
  (filtered_data rows).map Row.bioethanol

/-- `vanillin_filtered = [point[3] for point in filtered_data]`. -/
def vanillin_filtered (rows : List Row) : List ℚ :=
  (filtered_data rows).map Row.vanillin

/-- `furfural_filtered = [point[4] for point in filtered_data]`. -/
def furfural_filtered (rows : List Row) : List ℚ :=
  (filtered_data rows).map Row.furfural

/-- `optimal_indices = [filtered_points.index(ind) for ind in pareto_front]`
(`list.index` returns the first position holding a value-equal element). -/
def optimal_indices (rows : List Row) : List Nat :=
  (pareto_front (filtered_points rows)).map fun p =>
    (filtered_points rows).findIdx fun q => decide (q = p)

/-- `pareto_bioethanol = [bioethanol_filtered[idx] for idx in optimal_indices]`
(the default of `getD` is never reached: every index produced by
`optimal_indices` is in range). -/
def pareto_bioethanol (rows : List Row) : List ℚ :=
  (optimal_indices rows).map fun idx => (bioethanol_filtered rows).getD idx 0

/-- `pareto_vanillin = [vanillin_filtered[idx] for idx in optimal_indices]`. -/
def pareto_vanillin (rows : List Row) : List ℚ :=
  (optimal_indices rows).map fun idx => (vanillin_filtered rows).getD idx 0

/-- `pareto_furfural = [furfural_filtered[idx] for idx in optimal_indices]`. -/
def pareto_furfural (rows : List Row) : List ℚ :=
  (optimal_indices rows).map fun idx => (furfural_filtered rows).getD idx 0

/-! ### The `biorefinery_LCA` class (LCA notebook embedded in `README.md`)

Only the parts the claims touch are embedded: the state accumulated by
`calc_lca` that `analyze_lca` reads, and `analyze_lca` itself.  In the
source, methods are opaque identifiers resolved by Brightway2 and an
`impact_of_interest` argument may be any Python object; both are
modelled as strings.  The Brightway2 `LCA({act: amount}, method).score`
engine is an external collaborator and enters as an explicit function
argument, as does the list of technosphere exchanges of the functional
unit's activity. -/

/-- An opaque impact-method identifier (a category-string tuple in the
source, passed around without inspection). -/
abbrev Method := String

/-- One upstream technosphere exchange of an activity: its input
activity reference, `exc['amount']` and `exc['group_tag']`. -/
structure Exchange where
  input : String
  amount : ℚ
  group_tag : String
deriving DecidableEq, Repr

/-- The fields of a `biorefinery_LCA` object that `analyze_lca` reads:
`self.LCA_results_dict`, as filled by `calc_lca`
(`LCA_results_dict[FU_name][method] = score`). -/
structure LCAState where
  lca_results : List (String × List (Method × ℚ))
deriving Repr

/-- `dict.keys()` of an association list. -/
def dictKeys {β : Type} (m : List (String × β)) : List String :=
  m.map Prod.fst

/-- The impact methods for which `calc_lca` has stored an
`ImpactResult`: the inner keys of `LCA_results_dict`. -/
def evaluated_methods (st : LCAState) : List Method :=
  (st.lca_results.map fun kv => dictKeys kv.2).flatten

/-- `defaultdict(list)` accumulation: append `x` to the bucket of key
`k`, creating the bucket (in encounter order) if absent. -/
def addToGroup (m : List (String × List ℚ)) (k : String) (x : ℚ) :
    List (String × List ℚ) :=
  match m with
  | [] => [(k, [x])]
  | (k₀, v) :: rest =>
      if k₀ = k then (k₀, v ++ [x]) :: rest else (k₀, v) :: addToGroup rest k x

/-- The body of the `while not self.analysis_done` loop of
`analyze_lca`: score `{exc.input: exc['amount']}` under the method for
every technosphere exchange, bucket the scores by `exc['group_tag']`
into a `defaultdict(list)`, then sum each bucket. -/
def analyze_lca_loop_body (engine : String → ℚ → Method → ℚ)
    (impact_of_interest : Method) (technosphere : List Exchange) :
    List (String × ℚ) :=
  (technosphere.foldl
      (fun m exc => addToGroup m exc.group_tag (engine exc.input exc.amount impact_of_interest))
      []).map fun kv => (kv.1, kv.2.sum)

/-- `analyze_lca(self, impact_of_interest, ...)` from the source:

* `assert self.impact_of_interest in self.LCA_results_dict.keys(), "This
  method is not in your LCIA method list!"` — a failed assert is the
  `.error` branch;
* `self.analysis_done = True` — set **before** the loop;
* `self.techno_impact_results_grouped = collections.defaultdict(list)`;
* `while not self.analysis_done:` — the loop guard is read *after*
  `analysis_done` was just set to `True`, so the loop body (embedded as
  `analyze_lca_loop_body`) is never entered and the grouped results stay
  empty.

Returns the final `techno_impact_results_grouped`. -/
def analyze_lca (st : LCAState) (impact_of_interest : Method)
    (engine : String → ℚ → Method → ℚ) (technosphere : List Exchange) :
    Except String (List (String × ℚ)) :=
  if impact_of_interest ∈ dictKeys st.lca_results then
    let analysis_done := true
    let grouped : List (String × ℚ) := []
    let grouped :=
      if analysis_done then grouped
      else analyze_lca_loop_body engine impact_of_interest technosphere
    .ok grouped
  else
    .error "This method is not in your LCIA method list!"

/-- Modelled from the spec (§4.3 Contribution Aggregator), the reference
against which `analyze_lca` is compared: for every upstream technosphere
exchange, score `{exchange.input: exchange.amount}` under the method and
accumulate into the bucket named by the exchange's group tag, buckets
absent from the mapping being implicitly zero; each tag's value is the
sum of the scores of the exchanges carrying that tag. -/
def aggregate_spec (engine : String → ℚ → Method → ℚ) (method : Method)
    (technosphere : List Exchange) (tag : String) : ℚ :=
  ((technosphere.filter fun exc => exc.group_tag = tag).map
      fun exc => engine exc.input exc.amount method).sum

/-- Every list of points has a member minimal for gwp and, among the
members sharing that gwp, maximal for npv.  Such a member is dominated
by no element of the list, which drives the completeness proof. -/
theorem exists_lex_best (D : List Point) (hD : D ≠ []) :
    ∃ q ∈ D, ∀ r ∈ D, q.gwp ≤ r.gwp ∧ (r.gwp ≤ q.gwp → r.npv ≤ q.npv) := by
  induction D with
  | nil => exact absurd rfl hD
  | cons a D ih =>
    rcases eq_or_ne D [] with rfl | hne
    · refine ⟨a, List.mem_singleton_self a, ?_⟩
      intro r hr
      rcases List.mem_singleton.mp hr with rfl
      exact ⟨le_refl _, fun _ => le_refl _⟩
    · obtain ⟨q, hqD, hq⟩ := ih hne
      by_cases hlt : a.gwp < q.gwp
      · refine ⟨a, List.mem_cons_self a D, ?_⟩
        intro r hr
        rcases List.mem_cons.mp hr with rfl | hrD
        · exact ⟨le_refl _, fun _ => le_refl _⟩
        · refine ⟨le_trans hlt.le (hq r hrD).1, fun hle => ?_⟩
          exact absurd (lt_of_lt_of_le hlt (hq r hrD).1) (not_lt.mpr hle)
      · have hqa : q.gwp ≤ a.gwp := not_lt.mp hlt
        by_cases haq : a.gwp ≤ q.gwp
        · by_cases hnpv : q.npv ≤ a.npv
          · refine ⟨a, List.mem_cons_self a D, ?_⟩
            intro r hr
            rcases List.mem_cons.mp hr with rfl | hrD
            · exact ⟨le_refl _, fun _ => le_refl _⟩
            · refine ⟨le_trans haq (hq r hrD).1, fun hle => ?_⟩
              exact le_trans ((hq r hrD).2 (le_trans hle haq)) hnpv
          · refine ⟨q, List.mem_cons_of_mem a hqD, ?_⟩
            intro r hr
            rcases List.mem_cons.mp hr with rfl | hrD
            · exact ⟨hqa, fun _ => (not_le.mp hnpv).le⟩
            · exact hq r hrD
        · refine ⟨q, List.mem_cons_of_mem a hqD, ?_⟩
          intro r hr
          rcases List.mem_cons.mp hr with rfl | hrD
          · exact ⟨hqa, fun hle => absurd hle haq⟩
          · exact hq r hrD

/-- The four evaluated points of the spec's worked end-to-end example. -/
def exPoints : List Point :=
  [⟨-10, 100⟩, ⟨-8, 150⟩, ⟨-5, 90⟩, ⟨-8, 80⟩]

/-- C2 (Pareto antichain): for every input sequence of feasible points
and all pairs of distinct points A, B of the returned front, neither
dominates the other under the §4.5 rule (the front is a set of points,
so distinct members are points with distinct `(gwp, npv)` values, and
for those the "not identical" clause of the rule holds however identity
is read). -/
theorem pareto_antichain (points : List Point) (A B : Point)
    (hA : A ∈ pareto_front points) (hB : B ∈ pareto_front points) (_hAB : A ≠ B) :
    ¬(A.gwp ≤ B.gwp ∧ A.npv ≥ B.npv ∧ A ≠ B) ∧
    ¬(B.gwp ≤ A.gwp ∧ B.npv ≥ A.npv ∧ B ≠ A) := by
  obtain ⟨hAmem, hAnd⟩ := mem_pareto_front_iff.mp hA
  obtain ⟨hBmem, hBnd⟩ := mem_pareto_front_iff.mp hB
  exact ⟨fun hdom => hBnd ⟨A, hAmem, hdom⟩, fun hdom => hAnd ⟨B, hBmem, hdom⟩⟩

/-- Witness for C2 at the spec's worked example: the two front members
are on the front, are distinct, and neither dominates the other. -/
theorem pareto_antichain_witness :
    ((⟨-10, 100⟩ : Point) ∈ pareto_front exPoints ∧
      (⟨-8, 150⟩ : Point) ∈ pareto_front exPoints ∧
      (⟨-10, 100⟩ : Point) ≠ ⟨-8, 150⟩) ∧
    (¬((Point.mk (-10) 100).gwp ≤ (Point.mk (-8) 150).gwp ∧
        (Point.mk (-10) 100).npv ≥ (Point.mk (-8) 150).npv ∧
        Point.mk (-10) 100 ≠ Point.mk (-8) 150) ∧
      ¬((Point.mk (-8) 150).gwp ≤ (Point.mk (-10) 100).gwp ∧
        (Point.mk (-8) 150).npv ≥ (Point.mk (-10) 100).npv ∧
        Point.mk (-8) 150 ≠ Point.mk (-10) 100)) :=
  ⟨⟨by decide, by decide, by decide⟩,
    pareto_antichain exPoints _ _ (by decide) (by decide) (by decide)⟩

/-- C3 (Pareto completeness): every feasible input point that is not on
the returned front is dominated by at least one front member. -/
theorem pareto_completeness (points : List Point) (p : Point)
    (hp : p ∈ points) (hnp : p ∉ pareto_front points) :
    ∃ q ∈ pareto_front points, q.gwp ≤ p.gwp ∧ q.npv ≥ p.npv ∧ q ≠ p := by
  have hdom : ∃ q ∈ points, q.gwp ≤ p.gwp ∧ q.npv ≥ p.npv ∧ q ≠ p := by
    by_contra hno
    exact hnp (mem_pareto_front_iff.mpr ⟨hp, hno⟩)
  set D := points.filter (fun q => decide (q.gwp ≤ p.gwp ∧ q.npv ≥ p.npv ∧ q ≠ p))
    with hDdef
  have hDne : D ≠ [] := by
    obtain ⟨q, hqmem, hqd⟩ := hdom
    exact List.ne_nil_of_mem (List.mem_filter.mpr ⟨hqmem, by simpa using hqd⟩)
  obtain ⟨q, hqD, hbest⟩ := exists_lex_best D hDne
  have hqMem : q ∈ points := List.mem_of_mem_filter hqD
  have hqdomp : q.gwp ≤ p.gwp ∧ q.npv ≥ p.npv ∧ q ≠ p := by
    simpa using (List.mem_filter.mp hqD).2
  refine ⟨q, ?_, hqdomp⟩
  rw [mem_pareto_front_iff]
  refine ⟨hqMem, ?_⟩
  rintro ⟨r, hrmem, hr1, hr2, hr3⟩
  have hrD : r ∈ D := by
    refine List.mem_filter.mpr ⟨hrmem, ?_⟩
    have h1 : r.gwp ≤ p.gwp := le_trans hr1 hqdomp.1
    have h2 : r.npv ≥ p.npv := le_trans hqdomp.2.1 hr2
    have h3 : r ≠ p := by
      rintro rfl
      have hg : q.gwp = r.gwp := le_antisymm hqdomp.1 hr1
      have hn : q.npv = r.npv := le_antisymm hr2 hqdomp.2.1
      exact hqdomp.2.2 (by cases q; cases r; simp_all)
    simp [h1, h2, h3]
  obtain ⟨hble, hbnpv⟩ := hbest r hrD
  have hgeq : r.gwp = q.gwp := le_antisymm hr1 hble
  have hneq : r.npv = q.npv := le_antisymm (hbnpv hgeq.le) hr2
  exact hr3 (by cases r; cases q; simp_all)

/-- Witness for C3 at the spec's worked example: `(-5, 90)` is feasible,
off the front, and some front member dominates it. -/
theorem pareto_completeness_witness :
    ((⟨-5, 90⟩ : Point) ∈ exPoints ∧ (⟨-5, 90⟩ : Point) ∉ pareto_front exPoints) ∧
    (∃ q ∈ pareto_front exPoints,
      q.gwp ≤ (Point.mk (-5) 90).gwp ∧ q.npv ≥ (Point.mk (-5) 90).npv ∧
      q ≠ ⟨-5, 90⟩) :=
  ⟨⟨by decide, by decide⟩, pareto_completeness exPoints _ (by decide) (by decide)⟩

/-- C4 (idempotence): filtering the front again changes nothing; the
front is a fixed point of `pareto_front`. -/
theorem pareto_front_idempotent (points : List Point) :
    pareto_front (pareto_front points) = pareto_front points := by
  apply List.filter_eq_self.mpr
  intro p hp
  obtain ⟨hmem, hnd⟩ := mem_pareto_front_iff.mp hp
  rw [Bool.not_eq_true']
  cases hdom : is_dominated p (pareto_front points) with
  | false => rfl
  | true =>
    obtain ⟨q, hqF, hqd⟩ := is_dominated_iff.mp hdom
    exact absurd ⟨q, List.mem_of_mem_filter hqF, hqd⟩ hnd

theorem dist2_nonneg (p : Point) (g n : ℚ) : 0 ≤ dist2 p g n :=
  add_nonneg (mul_self_nonneg _) (mul_self_nonneg _)

/-- `argminQ` over a mapped list, phrased on the underlying list: the
returned index is in range, carries a minimal value of `f`, and every
index carrying a value not larger than it lies at or after it. -/
theorem argminQ_map (f : Point → ℚ) (L : List Point) (hL : L ≠ []) :
    ∃ hb : argminQ (L.map f) < L.length,
      ∀ i : Fin L.length,
        f (L.get ⟨argminQ (L.map f), hb⟩) ≤ f (L.get i) ∧
        (f (L.get i) ≤ f (L.get ⟨argminQ (L.map f), hb⟩) →
          argminQ (L.map f) ≤ (i : Nat)) := by
  have hne : L.map f ≠ [] := by simp [hL]
  have hlen : (L.map f).length = L.length := List.length_map _ _
  have hb0 : argminQ (L.map f) < (L.map f).length := argminQ_lt_length hne
  have hb : argminQ (L.map f) < L.length := by rw [← hlen]; exact hb0
  refine ⟨hb, ?_⟩
  intro i
  have hi : (i : Nat) < (L.map f).length := by rw [hlen]; exact i.2
  have hvk : (L.map f).get ⟨argminQ (L.map f), hb0⟩ =
      f (L.get ⟨argminQ (L.map f), hb⟩) := by
    rw [List.get_map]
  have hvi : (L.map f).get ⟨(i : Nat), hi⟩ = f (L.get i) := by
    rw [List.get_map]
  have hmin : (L.map f).get ⟨argminQ (L.map f), hb0⟩ ≤ (L.map f).get ⟨(i : Nat), hi⟩ := by
    rw [get_argminQ hb0]
    exact listMin_le_of_mem (List.get_mem _ _ _)
  refine ⟨by rw [← hvk, ← hvi]; exact hmin, ?_⟩
  intro hle
  refine argminQ_le_of_le hb0 ⟨(i : Nat), hi⟩ ?_
  rw [hvk, hvi]
  exact hle

/-- `argmaxQ` over a mapped list, dual to `argminQ_map`. -/
theorem argmaxQ_map (f : Point → ℚ) (L : List Point) (hL : L ≠ []) :
    ∃ hb : argmaxQ (L.map f) < L.length,
      ∀ i : Fin L.length,
        f (L.get i) ≤ f (L.get ⟨argmaxQ (L.map f), hb⟩) ∧
        (f (L.get ⟨argmaxQ (L.map f), hb⟩) ≤ f (L.get i) →
          argmaxQ (L.map f) ≤ (i : Nat)) := by
  have hne : L.map f ≠ [] := by simp [hL]
  have hlen : (L.map f).length = L.length := List.length_map _ _
  have hb0 : argmaxQ (L.map f) < (L.map f).length := argmaxQ_lt_length hne
  have hb : argmaxQ (L.map f) < L.length := by rw [← hlen]; exact hb0
  refine ⟨hb, ?_⟩
  intro i
  have hi : (i : Nat) < (L.map f).length := by rw [hlen]; exact i.2
  have hvk : (L.map f).get ⟨argmaxQ (L.map f), hb0⟩ =
      f (L.get ⟨argmaxQ (L.map f), hb⟩) := by
    rw [List.get_map]
  have hvi : (L.map f).get ⟨(i : Nat), hi⟩ = f (L.get i) := by
    rw [List.get_map]
  have hmax : (L.map f).get ⟨(i : Nat), hi⟩ ≤ (L.map f).get ⟨argmaxQ (L.map f), hb0⟩ := by
    rw [get_argmaxQ hb0]
    exact le_listMax_of_mem (List.get_mem _ _ _)
  refine ⟨by rw [← hvk, ← hvi]; exact hmax, ?_⟩
  intro hle
  refine argmaxQ_le_of_le hb0 ⟨(i : Nat), hi⟩ ?_
  rw [hvk, hvi]
  exact hle

/-- Dominance compared by scenario *identity* (position in the input
sequence), the rule the claims C1/C2 quote from §4.5 and §9 of the
spec: scenario `j` dominates scenario `i` iff `gwp_j ≤ gwp_i`,
`npv_j ≥ npv_i`, and `j` and `i` are different scenarios.  This is the
spec-side reference definition; the code's `is_dominated` compares by
value instead. -/
def dominatesAt (points : List Point) (j i : Fin points.length) : Prop :=
  (points.get j).gwp ≤ (points.get i).gwp ∧
  (points.get j).npv ≥ (points.get i).npv ∧ j ≠ i

/-- Two distinct scenarios with identical `(gwp, npv)` values: the
failing input for claim C1. -/
def twinPoints : List Point :=
  [⟨0, 0⟩, ⟨0, 0⟩]

/-- C1 (code bug, evaluated at the failing input): with two distinct
scenarios of identical values the code returns both on the front —
`other != point` in `is_dominated` is Python *value* inequality, so each
copy is skipped as a self-comparison — although under the claim's
identity-based rule scenario 1 dominates scenario 0 (and vice versa),
so neither scenario should belong to the front. -/
theorem pareto_front_keeps_identity_dominated :
    pareto_front twinPoints = twinPoints ∧
    twinPoints.get ⟨0, by decide⟩ ∈ pareto_front twinPoints ∧
    dominatesAt twinPoints ⟨1, by decide⟩ ⟨0, by decide⟩ := by
  refine ⟨by decide, by decide, ?_, ?_, ?_⟩ <;> decide

/-- C5 (end-to-end example): on the four feasible example points the
front, the two best-single-objective selections, the ideal point, the
squared distances to it, and the knee selection are exactly as the spec
computes them. -/
theorem end_to_end_example :
    (∀ p ∈ exPoints, 0 < p.npv) ∧
    pareto_front exPoints = [⟨-10, 100⟩, ⟨-8, 150⟩] ∧
    (pareto_front exPoints).getD (min_gwp_index exPoints) ⟨0, 0⟩ = ⟨-10, 100⟩ ∧
    (pareto_front exPoints).getD (max_npv_index exPoints) ⟨0, 0⟩ = ⟨-8, 150⟩ ∧
    ideal_gwp exPoints = -10 ∧ ideal_npv exPoints = 150 ∧
    distances2 exPoints = [2500, 4] ∧
    (pareto_front exPoints).getD (knee_index exPoints) ⟨0, 0⟩ = ⟨-8, 150⟩ := by
  have hfront : pareto_front exPoints = [⟨-10, 100⟩, ⟨-8, 150⟩] := by decide
  have hg : ideal_gwp exPoints = -10 := by decide
  have hn : ideal_npv exPoints = 150 := by decide
  have hd : distances2 exPoints = [2500, 4] := by
    rw [distances2, hfront, hg, hn]
    norm_num [dist2]
  have hknee : knee_index exPoints = 1 := by
    rw [knee_index, hd]
    decide
  refine ⟨by decide, hfront, by decide, by decide, hg, hn, hd, ?_⟩
  rw [hknee, hfront]
  decide

/-- C6 (knee correctness): on a non-empty front the knee index is in
range, the knee point's Euclidean distance to the ideal point
`(min gwp, max npv)` is at most every front member's distance to it,
and any member at distance not exceeding the knee's lies at or after
the knee index (ties go to the earliest member). -/
theorem knee_correct (points : List Point) (h : pareto_front points ≠ []) :
    ∃ hk : knee_index points < (pareto_front points).length,
      ∀ i : Fin (pareto_front points).length,
        Real.sqrt ((dist2 ((pareto_front points).get ⟨knee_index points, hk⟩)
            (ideal_gwp points) (ideal_npv points) : ℚ) : ℝ) ≤
          Real.sqrt ((dist2 ((pareto_front points).get i)
            (ideal_gwp points) (ideal_npv points) : ℚ) : ℝ) ∧
        (Real.sqrt ((dist2 ((pareto_front points).get i)
            (ideal_gwp points) (ideal_npv points) : ℚ) : ℝ) ≤
          Real.sqrt ((dist2 ((pareto_front points).get ⟨knee_index points, hk⟩)
            (ideal_gwp points) (ideal_npv points) : ℚ) : ℝ) →
          knee_index points ≤ (i : Nat)) := by
  obtain ⟨hb, hspec⟩ :=
    argminQ_map (fun p => dist2 p (ideal_gwp points) (ideal_npv points))
      (pareto_front points) h
  refine ⟨hb, ?_⟩
  intro i
  obtain ⟨h1, h2⟩ := hspec i
  constructor
  · exact Real.sqrt_le_sqrt (by exact_mod_cast h1)
  · intro hs
    have h0k : (0 : ℝ) ≤
        ((dist2 ((pareto_front points).get ⟨knee_index points, hb⟩)
          (ideal_gwp points) (ideal_npv points) : ℚ) : ℝ) := by
      exact_mod_cast dist2_nonneg _ _ _
    have h3 := (Real.sqrt_le_sqrt_iff h0k).mp hs
    exact h2 (by exact_mod_cast h3)

/-- Witness for C6: the worked example's front is non-empty, and the
knee point distance bound holds there. -/
theorem knee_correct_witness :
    pareto_front exPoints ≠ [] ∧
    ∃ hk : knee_index exPoints < (pareto_front exPoints).length,
      ∀ i : Fin (pareto_front exPoints).length,
        Real.sqrt ((dist2 ((pareto_front exPoints).get ⟨knee_index exPoints, hk⟩)
            (ideal_gwp exPoints) (ideal_npv exPoints) : ℚ) : ℝ) ≤
          Real.sqrt ((dist2 ((pareto_front exPoints).get i)
            (ideal_gwp exPoints) (ideal_npv exPoints) : ℚ) : ℝ) ∧
        (Real.sqrt ((dist2 ((pareto_front exPoints).get i)
            (ideal_gwp exPoints) (ideal_npv exPoints) : ℚ) : ℝ) ≤
          Real.sqrt ((dist2 ((pareto_front exPoints).get ⟨knee_index exPoints, hk⟩)
            (ideal_gwp exPoints) (ideal_npv exPoints) : ℚ) : ℝ) →
          knee_index exPoints ≤ (i : Nat)) :=
  ⟨by decide, knee_correct exPoints (by decide)⟩

/-- C7 (best-single-objective selectors): on a non-empty front,
`min_gwp_index` points at a member of minimal gwp and `max_npv_index`
at a member of maximal npv, each tie resolved to the earliest member in
encounter order. -/
theorem best_selectors (points : List Point) (h : pareto_front points ≠ []) :
    ∃ hg : min_gwp_index points < (pareto_front points).length,
    ∃ hn : max_npv_index points < (pareto_front points).length,
      (∀ i : Fin (pareto_front points).length,
        ((pareto_front points).get ⟨min_gwp_index points, hg⟩).gwp ≤
            ((pareto_front points).get i).gwp ∧
        (((pareto_front points).get i).gwp ≤
            ((pareto_front points).get ⟨min_gwp_index points, hg⟩).gwp →
          min_gwp_index points ≤ (i : Nat))) ∧
      (∀ i : Fin (pareto_front points).length,
        ((pareto_front points).get i).npv ≤
            ((pareto_front points).get ⟨max_npv_index points, hn⟩).npv ∧
        (((pareto_front points).get ⟨max_npv_index points, hn⟩).npv ≤
            ((pareto_front points).get i).npv →
          max_npv_index points ≤ (i : Nat))) := by
  obtain ⟨hg, hgspec⟩ := argminQ_map Point.gwp (pareto_front points) h
  obtain ⟨hn, hnspec⟩ := argmaxQ_map Point.npv (pareto_front points) h
  exact ⟨hg, hn, hgspec, hnspec⟩

/-- Witness for C7 at the worked example. -/
theorem best_selectors_witness :
    pareto_front exPoints ≠ [] ∧
    (∃ hg : min_gwp_index exPoints < (pareto_front exPoints).length,
    ∃ hn : max_npv_index exPoints < (pareto_front exPoints).length,
      (∀ i : Fin (pareto_front exPoints).length,
        ((pareto_front exPoints).get ⟨min_gwp_index exPoints, hg⟩).gwp ≤
            ((pareto_front exPoints).get i).gwp ∧
        (((pareto_front exPoints).get i).gwp ≤
            ((pareto_front exPoints).get ⟨min_gwp_index exPoints, hg⟩).gwp →
          min_gwp_index exPoints ≤ (i : Nat))) ∧
      (∀ i : Fin (pareto_front exPoints).length,
        ((pareto_front exPoints).get i).npv ≤
            ((pareto_front exPoints).get ⟨max_npv_index exPoints, hn⟩).npv ∧
        (((pareto_front exPoints).get ⟨max_npv_index exPoints, hn⟩).npv ≤
            ((pareto_front exPoints).get i).npv →
          max_npv_index exPoints ≤ (i : Nat)))) :=
  ⟨by decide, best_selectors exPoints (by decide)⟩

/-- A concrete state as left by `calc_lca`: one functional unit `"FU1"`
evaluated under the single impact method `"m"` with score 3. -/
def stEx : LCAState :=
  ⟨[("FU1", [("m", 3)])]⟩

/-- A concrete impact engine: scores the single-entry map
`{input: amount}` as `5 * amount` under every method. -/
def engineEx : String → ℚ → Method → ℚ :=
  fun _ amount _ => 5 * amount

/-- A concrete upstream technosphere exchange carrying group tag `"Heat"`. -/
def excEx : Exchange :=
  ⟨"act1", 2, "Heat"⟩

/-- C8 (code bug, evaluated at the failing input): after `calc_lca`,
the call to `analyze_lca` that passes its assert returns an *empty*
grouped mapping — no bucket is ever created — although the functional
unit has a technosphere exchange whose spec-side aggregate is the
nonzero score 10, and although the loop body itself, had it run, would
have produced exactly that bucket.  The body is dead code because
`self.analysis_done = True` precedes `while not self.analysis_done`. -/
theorem analyze_lca_returns_empty_grouping :
    analyze_lca stEx "FU1" engineEx [excEx] = .ok [] ∧
    aggregate_spec engineEx "FU1" [excEx] "Heat" = 10 ∧
    analyze_lca_loop_body engineEx "FU1" [excEx] = [("Heat", 10)] := by
  refine ⟨?_, ?_, ?_⟩
  · simp [analyze_lca, dictKeys, stEx]
  · norm_num [aggregate_spec, excEx, engineEx]
  · norm_num [analyze_lca_loop_body, addToGroup, excEx, engineEx]

/-- C9 (code bug, evaluated at the failing input): `"FU1"` is *not*
among the impact methods originally evaluated (those are the inner keys
of `LCA_results_dict`; here just `"m"`), yet `analyze_lca stEx "FU1"`
does not raise: the assert checks membership among the outer keys — the
functional-unit names — so the call proceeds and returns an empty
result instead of failing fast. -/
theorem analyze_lca_accepts_unevaluated_method :
    "FU1" ∉ evaluated_methods stEx ∧
    analyze_lca stEx "FU1" engineEx [excEx] = .ok [] := by
  constructor
  · simp [evaluated_methods, dictKeys, stEx]
  · simp [analyze_lca, dictKeys, stEx]

/-- C10 (allocation attribution for value-equal scenarios): for every
input table and every position `k` on the returned front, the index
reported by `optimal_indices` is the position of the *first* feasible
row (in encounter order) whose `(gwp, npv)` pair equals the front
point's values, and the reported per-product allocation percentages are
exactly that row's; consequently a later feasible scenario with the
same `(gwp, npv)` never has its allocation reported. -/
theorem allocation_attribution (rows : List Row)
    (k : Fin (pareto_front (filtered_points rows)).length) :
    ∃ hk : (k : Nat) < (optimal_indices rows).length,
    ∃ hi : (optimal_indices rows).get ⟨k, hk⟩ < (filtered_data rows).length,
      rowPoint ((filtered_data rows).get ⟨(optimal_indices rows).get ⟨k, hk⟩, hi⟩) =
        (pareto_front (filtered_points rows)).get k ∧
      (∀ j : Fin (filtered_data rows).length,
        (j : Nat) < (optimal_indices rows).get ⟨k, hk⟩ →
        rowPoint ((filtered_data rows).get j) ≠
          (pareto_front (filtered_points rows)).get k) ∧
      (pareto_bioethanol rows).getD (k : Nat) 0 =
        ((filtered_data rows).get ⟨(optimal_indices rows).get ⟨k, hk⟩, hi⟩).bioethanol ∧
      (pareto_vanillin rows).getD (k : Nat) 0 =
        ((filtered_data rows).get ⟨(optimal_indices rows).get ⟨k, hk⟩, hi⟩).vanillin ∧
      (pareto_furfural rows).getD (k : Nat) 0 =
        ((filtered_data rows).get ⟨(optimal_indices rows).get ⟨k, hk⟩, hi⟩).furfural := by
  have hk : (k : Nat) < (optimal_indices rows).length := by
    simp [optimal_indices]
  have hplen : (filtered_points rows).length = (filtered_data rows).length :=
    List.length_map _ _
  set p := (pareto_front (filtered_points rows)).get k with hp
  have hpmem : p ∈ filtered_points rows :=
    List.mem_of_mem_filter (List.get_mem _ _ _)
  have idx_eq : (optimal_indices rows).get ⟨k, hk⟩ =
      (filtered_points rows).findIdx fun q => decide (q = p) := by
    simp [optimal_indices, List.get_map, hp]
  have hfind : ((filtered_points rows).findIdx fun q => decide (q = p)) <
      (filtered_points rows).length :=
    List.findIdx_lt_length_of_exists ⟨p, hpmem, by simp⟩
  have hi : (optimal_indices rows).get ⟨k, hk⟩ < (filtered_data rows).length := by
    rw [idx_eq, ← hplen]
    exact hfind
  refine ⟨hk, hi, ?_, ?_, ?_, ?_, ?_⟩
  · -- the row at the reported index carries the front point's values
    have h1 : decide ((filtered_points rows).get
        ⟨(filtered_points rows).findIdx fun q => decide (q = p), hfind⟩ = p) = true :=
      List.findIdx_get (w := hfind)
    have h2 := of_decide_eq_true h1
    have h3 : (filtered_points rows).get
        ⟨(filtered_points rows).findIdx fun q => decide (q = p), hfind⟩ =
        rowPoint ((filtered_data rows).get
          ⟨(filtered_points rows).findIdx fun q => decide (q = p), by
            rw [← hplen]; exact hfind⟩) := by
      simp [filtered_points, List.get_map]
    have h4 : rowPoint ((filtered_data rows).get
        ⟨(filtered_points rows).findIdx fun q => decide (q = p), by
          rw [← hplen]; exact hfind⟩) = p := h3.symm.trans h2
    have h5 : (⟨(optimal_indices rows).get ⟨k, hk⟩, hi⟩ :
        Fin (filtered_data rows).length) =
        ⟨(filtered_points rows).findIdx fun q => decide (q = p), by
          rw [← hplen]; exact hfind⟩ :=
      Fin.ext idx_eq
    rw [h5]
    exact h4
  · -- no earlier feasible row carries those values
    intro j hj
    have hj' : (j : Nat) < (filtered_points rows).findIdx fun q => decide (q = p) := by
      rw [← idx_eq]; exact hj
    have hfalse := List.not_of_lt_findIdx hj'
    have hjlt : (j : Nat) < (filtered_points rows).length := by
      rw [hplen]; exact j.2
    have hjv : (filtered_points rows)[(j : Nat)] =
        rowPoint ((filtered_data rows).get j) := by
      simp [filtered_points]
    rw [hjv] at hfalse
    simp at hfalse
    exact hfalse
  · -- reported bioethanol percentage
    rw [show (pareto_bioethanol rows).getD (k : Nat) 0 =
        (bioethanol_filtered rows).getD ((optimal_indices rows).get ⟨k, hk⟩) 0 by
      rw [pareto_bioethanol, List.getD_eq_getElem _ _ (by simpa using hk),
        List.getElem_map]
      congr 1]
    rw [bioethanol_filtered, List.getD_eq_getElem _ _ (by simpa using hi),
      List.getElem_map]
    congr 1
  · -- reported vanillin percentage
    rw [show (pareto_vanillin rows).getD (k : Nat) 0 =
        (vanillin_filtered rows).getD ((optimal_indices rows).get ⟨k, hk⟩) 0 by
      rw [pareto_vanillin, List.getD_eq_getElem _ _ (by simpa using hk),
        List.getElem_map]
      congr 1]
    rw [vanillin_filtered, List.getD_eq_getElem _ _ (by simpa using hi),
      List.getElem_map]
    congr 1
  · -- reported furfural percentage
    rw [show (pareto_furfural rows).getD (k : Nat) 0 =
        (furfural_filtered rows).getD ((optimal_indices rows).get ⟨k, hk⟩) 0 by
      rw [pareto_furfural, List.getD_eq_getElem _ _ (by simpa using hk),
        List.getElem_map]
      congr 1]
    rw [furfural_filtered, List.getD_eq_getElem _ _ (by simpa using hi),
      List.getElem_map]
    congr 1
